import Mathlib

/-!
Shallow embedding of the task-list core from `src/main.py` (SimpleTaskList).

The store is modelled as a list of `Task` rows in insertion (rowid) order.
Each Flask route body becomes a pure function on the store; request-form
fields become `Option String` arguments (`none` = field absent), and the
current time is passed explicitly.  SQL aggregates (`min(position)`) and
lookups (`db.session.get`) become list functions.  `edit_task` returns
`Option Store` because a missing `content` field assigns NULL to a
`nullable=False` column, which makes the commit fail with no change.
-/

namespace TaskList

/-- One row of the `task` table (`class Task` in `src/main.py`). -/
structure Task where
  id : Nat
  content : String
  position : Int
  color : Option String
  label : Option String
  due_date : Option String
  completion_note : Option String
  requires_id : Option Nat
  created_at : Nat
  completed_at : Option Nat
deriving Repr, DecidableEq

/-- The task store: rows in rowid (insertion) order. -/
abbrev Store := List Task

/-- `db.session.get(Task, i)`: first (unique, in reachable states) row with primary key `i`. -/
def get_task (s : Store) (i : Nat) : Option Task :=
  s.find? (fun t => t.id == i)

/-- `db.session.query(db.func.min(Task.position)).scalar()`: SQL MIN over all rows,
`none` when the table is empty. -/
def min_position : Store → Option Int
  | [] => none
  | t :: ts =>
    match min_position ts with
    | none => some t.position
    | some m => some (min t.position m)

/-- SQLite rowid assignment for a fresh row: one more than the largest existing id. -/
def max_id : Store → Nat
  | [] => 0
  | t :: ts => max t.id (max_id ts)

def next_id (s : Store) : Nat := max_id s + 1

/-- Python `str.title()` restricted to ASCII letters: the first letter of each
maximal run of letters is uppercased, the rest lowercased. -/
def py_title_go : Bool → List Char → List Char
  | _, [] => []
  | prevAlpha, c :: cs =>
    if c.isAlpha then
      (if prevAlpha then c.toLower else c.toUpper) :: py_title_go true cs
    else
      c :: py_title_go false cs

def py_title (s : String) : String := ⟨py_title_go false s.data⟩

/-- Codepoints for which Python `str.isspace()` is true, taken from the Unicode
character database as used by CPython 3.11: the ASCII whitespace controls
(including `\x0b` and `\x0c`, and the separators `\x1c`-`\x1f`), NEL, NBSP, and
the Unicode space separators. -/
def py_space_codepoints : List Nat :=
  [9, 10, 11, 12, 13, 28, 29, 30, 31, 32, 133, 160, 5760,
   8192, 8193, 8194, 8195, 8196, 8197, 8198, 8199, 8200, 8201, 8202,
   8232, 8233, 8239, 8287, 12288]

/-- Python `str.isspace()` on a single character. -/
def py_isspace (c : Char) : Bool := py_space_codepoints.contains c.toNat

/-- Python `str.strip()`: drop leading and trailing Python-whitespace. -/
def py_strip (s : String) : String :=
  ⟨(((s.data.dropWhile py_isspace).reverse.dropWhile py_isspace).reverse)⟩

/-- `raw_label.strip().title() if raw_label else None`: a missing or empty
submission becomes `none`; otherwise the string is stripped then title-cased. -/
def norm_label (raw : Option String) : Option String :=
  match raw with
  | none => none
  | some r => if r = "" then none else some (py_title (py_strip r))

/-- `x if x else None`: empty strings degrade to absent. -/
def norm_opt (raw : Option String) : Option String :=
  match raw with
  | none => none
  | some r => if r = "" then none else some r

/-- First codepoints of the decimal-digit decades (Unicode `Numeric_Type=Decimal`,
the digits Python `int()` accepts), from the Unicode character database as used
by CPython 3.11: for each listed `z`, the codepoints `z .. z + 9` are the
decimal digits `0 .. 9` of one script. -/
def decimal_zero_points : List Nat :=
  [48, 1632, 1776, 1984, 2406, 2534, 2662, 2790, 2918, 3046,
   3174, 3302, 3430, 3558, 3664, 3792, 3872, 4160, 4240, 6112,
   6160, 6470, 6608, 6784, 6800, 6992, 7088, 7232, 7248, 42528,
   43216, 43264, 43472, 43504, 43600, 44016, 65296, 66720, 68912, 69734,
   69872, 69942, 70096, 70384, 70736, 70864, 71248, 71360, 71472, 71904,
   72016, 72784, 73040, 73120, 92768, 92864, 93008, 120782, 120792, 120802,
   120812, 120822, 123200, 123632, 125264, 130032]

/-- The decimal value of a character, when it has one — exactly the characters
Python `int()` can consume. -/
def py_decimal_val (c : Char) : Option Nat :=
  (decimal_zero_points.find? (fun z => z ≤ c.toNat && c.toNat ≤ z + 9)).map
    (fun z => c.toNat - z)

/-- Codepoint ranges with Unicode `Numeric_Type=Digit` but not `Decimal` (from
the Unicode character database as used by CPython 3.11): Python `str.isdigit()`
accepts these — superscripts such as `²`, circled digits, etc. — but `int()`
raises ValueError on them. -/
def digit_only_ranges : List (Nat × Nat) :=
  [(178, 179), (185, 185), (4969, 4977), (6618, 6618), (8304, 8304),
   (8308, 8313), (8320, 8329), (9312, 9320), (9332, 9340), (9352, 9360),
   (9450, 9450), (9461, 9469), (9471, 9471), (10102, 10110), (10112, 10120),
   (10122, 10130), (68160, 68163), (69216, 69224), (69714, 69722),
   (127232, 127242)]

/-- Python `str.isdigit()` on a single character: true for decimal digits and
for digit-but-not-decimal characters. -/
def py_isdigit (c : Char) : Bool :=
  (py_decimal_val c).isSome || digit_only_ranges.any (fun r => r.1 ≤ c.toNat && c.toNat ≤ r.2)

/-- Python `int()` applied to a non-empty string of `isdigit` characters:
succeeds iff every character is a decimal digit, producing the base-10 value;
on any digit-but-not-decimal character it raises ValueError (`none`). -/
def py_int_of_digits (cs : List Char) : Option Nat :=
  cs.foldl (fun acc c =>
    match acc, py_decimal_val c with
    | some n, some d => some (10 * n + d)
    | _, _ => none) (some 0)

/-- Route `/add` (`add_task`): with non-empty `content`, insert a fresh row whose
`position` is `min(position) - 1` (or `0` on an empty table); otherwise do nothing. -/
def add_task (s : Store) (content : Option String) (color : String)
    (label due_date : Option String) (now : Nat) : Store :=
  match content with
  | none => s
  | some c =>
    if c = "" then s
    else
      let new_pos : Int :=
        match min_position s with
        | none => 0
        | some m => m - 1
      s ++ [{ id := next_id s, content := c, position := new_pos, color := some color,
              label := norm_label label, due_date := norm_opt due_date,
              completion_note := none, requires_id := none,
              created_at := now, completed_at := none }]

/-- Route `/edit/<id>` POST (`edit_task`): overwrite the row's fields from the form.
`content` is assigned unvalidated; a missing `content` writes NULL into a
`nullable=False` column, so the commit fails (`none`) leaving the store unchanged.
For `requires_id`, the route runs `if req_id and req_id.isdigit(): req_id_int =
int(req_id)` — a truthy all-`isdigit` submission containing a digit that is not
decimal (such as `²`) makes `int()` raise ValueError, so the request fails with
nothing committed (`none`); a decimal submission is kept iff it differs from the
task's own id and resolves to an existing row; every other submission clears the
field.  `completion_note` is only honored while the task is completed. -/
def edit_task (s : Store) (i : Nat) (content : Option String) (color : Option String)
    (label due_date requires_id completion_note : Option String) : Option Store :=
  match get_task s i with
  | none => some s
  | some task =>
    match content with
    | none => none
    | some c =>
      let apply_edit : Option Nat → Store := fun new_req =>
        s.map (fun t =>
          if t.id = i then
            { t with content := c, color := color, label := norm_label label,
                     due_date := norm_opt due_date, requires_id := new_req,
                     completion_note :=
                       if t.completed_at.isSome then norm_opt completion_note
                       else t.completion_note }
          else t)
      match requires_id with
      | none => some (apply_edit none)
      | some r =>
        if r.data ≠ [] ∧ r.data.all py_isdigit then
          match py_int_of_digits r.data with
          | none => none
          | some req_id_int =>
            if req_id_int ≠ task.id ∧ (get_task s req_id_int).isSome then
              some (apply_edit (some req_id_int))
            else some (apply_edit none)
        else some (apply_edit none)

/-- Route `/toggle/<id>` (`toggle_task`): a completed task is reactivated
(`completed_at := none`, `completion_note := none`, position recomputed by the
insert-at-top rule); an active task is completed (`completed_at := now`). -/
def toggle_task (s : Store) (i : Nat) (now : Nat) : Store :=
  match get_task s i with
  | none => s
  | some task =>
    if task.completed_at.isSome then
      let new_pos : Int :=
        match min_position s with
        | none => 0
        | some m => m - 1
      s.map (fun t =>
        if t.id = i then
          { t with completed_at := none, completion_note := none, position := new_pos }
        else t)
    else
      s.map (fun t => if t.id = i then { t with completed_at := some now } else t)

/-- `query.filter(position < p).order_by(position.desc()).first()` over active rows:
the active row with the greatest position below `p`, earliest row winning ties. -/
def neighbor_up (s : Store) (p : Int) : Option Task :=
  match s with
  | [] => none
  | t :: ts =>
    if t.completed_at = none ∧ t.position < p then
      match neighbor_up ts p with
      | none => some t
      | some b => if t.position < b.position then some b else some t
    else neighbor_up ts p

/-- `query.filter(position > p).order_by(position.asc()).first()` over active rows:
the active row with the least position above `p`, earliest row winning ties. -/
def neighbor_down (s : Store) (p : Int) : Option Task :=
  match s with
  | [] => none
  | t :: ts =>
    if t.completed_at = none ∧ p < t.position then
      match neighbor_down ts p with
      | none => some t
      | some b => if b.position < t.position then some b else some t
    else neighbor_down ts p

/-- Route `/move/<id>/<direction>` (`move_task`): swap positions with the immediate
active neighbor (`up` = next-lower position, anything else = next-higher); silent
no-op when the task is missing, completed, or has no such neighbor. -/
def move_task (s : Store) (i : Nat) (direction : String) : Store :=
  match get_task s i with
  | none => s
  | some current =>
    if current.completed_at.isSome then s
    else
      let nb :=
        if direction = "up" then neighbor_up s current.position
        else neighbor_down s current.position
      match nb with
      | none => s
      | some n =>
        s.map (fun t =>
          if t.id = i then { t with position := n.position }
          else if t.id = n.id then { t with position := current.position }
          else t)

/-- Route `/delete/<id>` (`delete_task`): clear `requires_id` on every dependent
row, then remove the row; no-op when the id does not resolve. -/
def delete_task (s : Store) (i : Nat) : Store :=
  match get_task s i with
  | none => s
  | some _ =>
    (s.map (fun t => if t.requires_id = some i then { t with requires_id := none } else t)).filter
      (fun t => t.id != i)

/-- `[t.id for t in tasks_to_delete]`: the ids of all completed rows. -/
def completed_ids (s : Store) : List Nat :=
  (s.filter (fun t => t.completed_at.isSome)).map (fun t => t.id)

/-- `dep.requires_id = None` for the dependents selected by
`Task.requires_id.in_(ids_to_delete)`: clear a reference pointing into `ids`. -/
def sweep_clear (ids : List Nat) (t : Task) : Task :=
  match t.requires_id with
  | none => t
  | some r => if r ∈ ids then { t with requires_id := none } else t

/-- Route `/sweep` (`sweep_completed`): collect the ids of all completed rows,
clear every `requires_id` pointing into that set, then delete those rows
(no-op when there is nothing to delete). -/
def sweep_completed (s : Store) : Store :=
  if (completed_ids s).isEmpty then s
  else (s.map (sweep_clear (completed_ids s))).filter (fun t => t.completed_at.isNone)

/-- One step of the bulk reorder: give task `p.2` position `p.1` (its index). -/
def apply_at (p : Nat × Nat) (t : Task) : Task :=
  if t.id = p.2 then { t with position := (p.1 : Int) } else t

/-- Modelled from the spec: the bulk drag-to-reorder endpoint (`reorder_tasks`) is
not present in `src/main.py` (only the spec describes it, §4.2 and §6).  Given an
externally supplied sequence of task ids it assigns `position = index` for each id
in the sequence, in order, ignoring ids that do not resolve to an existing task;
tasks absent from the sequence keep their position. -/
def reorder_tasks (s : Store) (seq : List Nat) : Store :=
  seq.enum.foldl
    (fun st p => if (get_task st p.2).isSome then st.map (apply_at p) else st) s

/-- Cumulative effect of all reorder steps on a single row. -/
def apply_seq (l : List (Nat × Nat)) (t : Task) : Task :=
  l.foldl (fun u p => apply_at p u) t

/-- The last (index, id) entry of the reorder sequence matching id `i`, if any. -/
def last_pos (l : List (Nat × Nat)) (i : Nat) : Option Nat :=
  match l with
  | [] => none
  | p :: l' =>
    match last_pos l' i with
    | some k => some k
    | none => if i = p.2 then some p.1 else none

/-- A concrete row used to instantiate the theorems below. -/
def sample_task (i : Nat) (p : Int) (ca : Option Nat) (req : Option Nat) : Task :=
  { id := i, content := "task", position := p, color := some "default", label := none,
    due_date := none, completion_note := none, requires_id := req,
    created_at := 0, completed_at := ca }

/-! ### Basic lemmas about the store helpers -/

theorem get_task_mem (s : Store) (i : Nat) (T : Task) (h : get_task s i = some T) :
    T ∈ s :=
  List.mem_of_find?_eq_some h

theorem get_task_id (s : Store) (i : Nat) (T : Task) (h : get_task s i = some T) :
    T.id = i := by
  have := List.find?_some h
  simpa using this

theorem get_task_isSome_iff (s : Store) (i : Nat) :
    (get_task s i).isSome = true ↔ ∃ t ∈ s, t.id = i := by
  unfold get_task
  rw [List.find?_isSome]
  simp

theorem get_task_eq_none_iff (s : Store) (i : Nat) :
    get_task s i = none ↔ ∀ t ∈ s, t.id ≠ i := by
  unfold get_task
  rw [List.find?_eq_none]
  simp

theorem min_position_eq_none_iff (s : Store) :
    min_position s = none ↔ s = [] := by
  cases s with
  | nil => simp [min_position]
  | cons t ts =>
    simp only [min_position]
    constructor
    · intro h
      cases hm : min_position ts <;> rw [hm] at h <;> simp at h
    · intro h
      exact absurd h (List.cons_ne_nil t ts)

theorem min_position_le (s : Store) (m : Int) (h : min_position s = some m) :
    ∀ t ∈ s, m ≤ t.position := by
  induction s generalizing m with
  | nil => simp [min_position] at h
  | cons a l ih =>
    intro t ht
    rw [List.mem_cons] at ht
    simp only [min_position] at h
    cases hm : min_position l with
    | none =>
      rw [hm] at h
      have hl : l = [] := (min_position_eq_none_iff l).mp hm
      rcases ht with rfl | hmem
      · simp at h
        omega
      · rw [hl] at hmem
        simp at hmem
    | some m0 =>
      rw [hm] at h
      simp at h
      rcases ht with rfl | hmem
      · omega
      · have := ih m0 hm t hmem
        omega

theorem min_position_exists (s : Store) (t : Task) (ht : t ∈ s) :
    ∃ m, min_position s = some m := by
  cases hm : min_position s with
  | none =>
    rw [min_position_eq_none_iff] at hm
    rw [hm] at ht
    simp at ht
  | some m => exact ⟨m, rfl⟩

theorem min_position_map (s : Store) (f : Task → Task)
    (hf : ∀ t, (f t).position = t.position) :
    min_position (s.map f) = min_position s := by
  induction s with
  | nil => rfl
  | cons a l ih => simp [min_position, ih, hf]

theorem sweep_clear_id (ids : List Nat) (t : Task) : (sweep_clear ids t).id = t.id := by
  unfold sweep_clear
  split
  · rfl
  · split <;> rfl

theorem sweep_clear_completed_at (ids : List Nat) (t : Task) :
    (sweep_clear ids t).completed_at = t.completed_at := by
  unfold sweep_clear
  split
  · rfl
  · split <;> rfl

theorem sweep_clear_requires_id (ids : List Nat) (t : Task) (r : Nat) :
    (sweep_clear ids t).requires_id = some r ↔ t.requires_id = some r ∧ r ∉ ids := by
  unfold sweep_clear
  split
  next heq => simp [heq]
  next r0 heq =>
    split
    next hin =>
      simp only [heq]
      constructor
      · intro hc
        exact absurd hc (by simp)
      · rintro ⟨h1, h2⟩
        cases h1
        exact absurd hin h2
    next hin =>
      simp only [heq]
      constructor
      · intro hc
        cases hc
        exact ⟨rfl, hin⟩
      · intro hc
        exact hc.1

theorem mem_completed_ids (s : Store) (r : Nat) :
    r ∈ completed_ids s ↔ ∃ u ∈ s, u.completed_at.isSome = true ∧ u.id = r := by
  unfold completed_ids
  simp [List.mem_map, List.mem_filter]
  constructor
  · rintro ⟨u, ⟨hu, hc⟩, hid⟩
    exact ⟨u, hu, hc, hid⟩
  · rintro ⟨u, hu, hc, hid⟩
    exact ⟨u, ⟨hu, hc⟩, hid⟩

theorem get_task_map (s : Store) (f : Task → Task) (i : Nat)
    (hf : ∀ t, (f t).id = t.id) :
    get_task (s.map f) i = Option.map f (get_task s i) := by
  induction s with
  | nil => rfl
  | cons a l ih =>
    unfold get_task at *
    simp only [List.map_cons, List.find?_cons]
    rw [hf a]
    cases h : (a.id == i) <;> simp [ih]

theorem toggle_task_of_active (s : Store) (i now : Nat) (T : Task)
    (hT : get_task s i = some T) (hact : T.completed_at = none) :
    toggle_task s i now =
      s.map (fun t => if t.id = i then { t with completed_at := some now } else t) := by
  unfold toggle_task
  rw [hT]
  dsimp only
  rw [hact]
  simp

theorem toggle_task_of_completed (s : Store) (i now : Nat) (T : Task) (m : Int)
    (hT : get_task s i = some T) (hcomp : T.completed_at.isSome = true)
    (hm : min_position s = some m) :
    toggle_task s i now =
      s.map (fun t => if t.id = i then
        { t with completed_at := none, completion_note := none, position := m - 1 }
        else t) := by
  unfold toggle_task
  rw [hT]
  dsimp only
  rw [hcomp, hm]
  simp

theorem neighbor_up_sound (s : Store) (p : Int) (N : Task)
    (h : neighbor_up s p = some N) :
    N ∈ s ∧ N.completed_at = none ∧ N.position < p := by
  induction s with
  | nil => simp [neighbor_up] at h
  | cons t ts ih =>
    rw [neighbor_up] at h
    by_cases hc : t.completed_at = none ∧ t.position < p
    · rw [if_pos hc] at h
      cases hrest : neighbor_up ts p with
      | none =>
        rw [hrest] at h
        dsimp only at h
        injection h with h
        subst h
        exact ⟨List.mem_cons_self t ts, hc.1, hc.2⟩
      | some b =>
        rw [hrest] at h
        dsimp only at h
        by_cases hlt : t.position < b.position
        · rw [if_pos hlt] at h
          injection h with h
          subst h
          obtain ⟨hb1, hb2, hb3⟩ := ih hrest
          exact ⟨List.mem_cons_of_mem t hb1, hb2, hb3⟩
        · rw [if_neg hlt] at h
          injection h with h
          subst h
          exact ⟨List.mem_cons_self t ts, hc.1, hc.2⟩
    · rw [if_neg hc] at h
      obtain ⟨hb1, hb2, hb3⟩ := ih h
      exact ⟨List.mem_cons_of_mem t hb1, hb2, hb3⟩

theorem neighbor_up_none (s : Store) (p : Int)
    (h : neighbor_up s p = none) :
    ∀ u ∈ s, u.completed_at = none → ¬ u.position < p := by
  induction s with
  | nil => simp
  | cons t ts ih =>
    intro u hu hu1
    rw [neighbor_up] at h
    rw [List.mem_cons] at hu
    by_cases hc : t.completed_at = none ∧ t.position < p
    · rw [if_pos hc] at h
      cases hrest : neighbor_up ts p with
      | none =>
        rw [hrest] at h
        dsimp only at h
        cases h
      | some b =>
        rw [hrest] at h
        dsimp only at h
        by_cases hlt : t.position < b.position
        · rw [if_pos hlt] at h
          cases h
        · rw [if_neg hlt] at h
          cases h
    · rw [if_neg hc] at h
      rcases hu with rfl | hmem
      · intro hlt
        exact hc ⟨hu1, hlt⟩
      · exact ih h u hmem hu1

theorem neighbor_down_none (s : Store) (p : Int)
    (h : neighbor_down s p = none) :
    ∀ u ∈ s, u.completed_at = none → ¬ p < u.position := by
  induction s with
  | nil => simp
  | cons t ts ih =>
    intro u hu hu1
    rw [neighbor_down] at h
    rw [List.mem_cons] at hu
    by_cases hc : t.completed_at = none ∧ p < t.position
    · rw [if_pos hc] at h
      cases hrest : neighbor_down ts p with
      | none =>
        rw [hrest] at h
        dsimp only at h
        cases h
      | some b =>
        rw [hrest] at h
        dsimp only at h
        by_cases hlt : b.position < t.position
        · rw [if_pos hlt] at h
          cases h
        · rw [if_neg hlt] at h
          cases h
    · rw [if_neg hc] at h
      rcases hu with rfl | hmem
      · intro hlt
        exact hc ⟨hu1, hlt⟩
      · exact ih h u hmem hu1

theorem neighbor_up_maximal (s : Store) (p : Int) (N : Task)
    (h : neighbor_up s p = some N) :
    ∀ u ∈ s, u.completed_at = none → u.position < p → u.position ≤ N.position := by
  induction s generalizing N with
  | nil => simp
  | cons t ts ih =>
    intro u hu hu1 hu2
    rw [neighbor_up] at h
    rw [List.mem_cons] at hu
    by_cases hc : t.completed_at = none ∧ t.position < p
    · rw [if_pos hc] at h
      cases hrest : neighbor_up ts p with
      | none =>
        rw [hrest] at h
        dsimp only at h
        injection h with h
        subst h
        rcases hu with rfl | hmem
        · omega
        · exact absurd hu2 (neighbor_up_none ts p hrest u hmem hu1)
      | some b =>
        rw [hrest] at h
        dsimp only at h
        by_cases hlt : t.position < b.position
        · rw [if_pos hlt] at h
          injection h with h
          subst h
          rcases hu with rfl | hmem
          · omega
          · exact ih _ hrest u hmem hu1 hu2
        · rw [if_neg hlt] at h
          injection h with h
          subst h
          rcases hu with rfl | hmem
          · omega
          · have := ih _ hrest u hmem hu1 hu2
            omega
    · rw [if_neg hc] at h
      rcases hu with rfl | hmem
      · exact absurd ⟨hu1, hu2⟩ hc
      · exact ih _ h u hmem hu1 hu2

theorem neighbor_down_sound (s : Store) (p : Int) (N : Task)
    (h : neighbor_down s p = some N) :
    N ∈ s ∧ N.completed_at = none ∧ p < N.position := by
  induction s with
  | nil => simp [neighbor_down] at h
  | cons t ts ih =>
    rw [neighbor_down] at h
    by_cases hc : t.completed_at = none ∧ p < t.position
    · rw [if_pos hc] at h
      cases hrest : neighbor_down ts p with
      | none =>
        rw [hrest] at h
        dsimp only at h
        injection h with h
        subst h
        exact ⟨List.mem_cons_self t ts, hc.1, hc.2⟩
      | some b =>
        rw [hrest] at h
        dsimp only at h
        by_cases hlt : b.position < t.position
        · rw [if_pos hlt] at h
          injection h with h
          subst h
          obtain ⟨hb1, hb2, hb3⟩ := ih hrest
          exact ⟨List.mem_cons_of_mem t hb1, hb2, hb3⟩
        · rw [if_neg hlt] at h
          injection h with h
          subst h
          exact ⟨List.mem_cons_self t ts, hc.1, hc.2⟩
    · rw [if_neg hc] at h
      obtain ⟨hb1, hb2, hb3⟩ := ih h
      exact ⟨List.mem_cons_of_mem t hb1, hb2, hb3⟩

theorem neighbor_down_minimal (s : Store) (p : Int) (N : Task)
    (h : neighbor_down s p = some N) :
    ∀ u ∈ s, u.completed_at = none → p < u.position → N.position ≤ u.position := by
  induction s generalizing N with
  | nil => simp
  | cons t ts ih =>
    intro u hu hu1 hu2
    rw [neighbor_down] at h
    rw [List.mem_cons] at hu
    by_cases hc : t.completed_at = none ∧ p < t.position
    · rw [if_pos hc] at h
      cases hrest : neighbor_down ts p with
      | none =>
        rw [hrest] at h
        dsimp only at h
        injection h with h
        subst h
        rcases hu with rfl | hmem
        · omega
        · exact absurd hu2 (neighbor_down_none ts p hrest u hmem hu1)
      | some b =>
        rw [hrest] at h
        dsimp only at h
        by_cases hlt : b.position < t.position
        · rw [if_pos hlt] at h
          injection h with h
          subst h
          rcases hu with rfl | hmem
          · omega
          · exact ih _ hrest u hmem hu1 hu2
        · rw [if_neg hlt] at h
          injection h with h
          subst h
          rcases hu with rfl | hmem
          · omega
          · have := ih _ hrest u hmem hu1 hu2
            omega
    · rw [if_neg hc] at h
      rcases hu with rfl | hmem
      · exact absurd ⟨hu1, hu2⟩ hc
      · exact ih _ h u hmem hu1 hu2

theorem move_task_of_missing (s : Store) (i : Nat) (dir : String)
    (h : get_task s i = none) : move_task s i dir = s := by
  unfold move_task
  rw [h]

theorem move_task_of_completed (s : Store) (i : Nat) (dir : String) (T : Task)
    (hT : get_task s i = some T) (hc : T.completed_at.isSome = true) :
    move_task s i dir = s := by
  unfold move_task
  rw [hT]
  dsimp only
  rw [hc]
  simp

theorem move_task_active_eq (s : Store) (i : Nat) (dir : String) (T : Task)
    (hT : get_task s i = some T) (hact : T.completed_at = none) :
    move_task s i dir =
      (match (if dir = "up" then neighbor_up s T.position
              else neighbor_down s T.position) with
       | none => s
       | some n => s.map (fun t =>
           if t.id = i then { t with position := n.position }
           else if t.id = n.id then { t with position := T.position } else t)) := by
  unfold move_task
  rw [hT]
  dsimp only
  rw [hact]
  simp

theorem apply_at_id (p : Nat × Nat) (t : Task) : (apply_at p t).id = t.id := by
  unfold apply_at
  split <;> rfl

theorem apply_seq_cons (p : Nat × Nat) (l : List (Nat × Nat)) (t : Task) :
    apply_seq (p :: l) t = apply_seq l (apply_at p t) := rfl

theorem apply_seq_eq_last_pos (l : List (Nat × Nat)) (t : Task) :
    apply_seq l t =
      (match last_pos l t.id with
       | none => t
       | some k => { t with position := (k : Int) }) := by
  induction l generalizing t with
  | nil => rfl
  | cons p l ih =>
    rw [apply_seq_cons, ih (apply_at p t), apply_at_id, last_pos]
    cases hl : last_pos l t.id with
    | some k =>
      dsimp only
      unfold apply_at
      split <;> rfl
    | none =>
      dsimp only
      unfold apply_at
      by_cases h : t.id = p.2
      · rw [if_pos h, if_pos h]
      · rw [if_neg h, if_neg h]

theorem apply_seq_id (l : List (Nat × Nat)) (t : Task) : (apply_seq l t).id = t.id := by
  rw [apply_seq_eq_last_pos]
  cases hl : last_pos l t.id <;> rfl

theorem apply_seq_idem (l : List (Nat × Nat)) (t : Task) :
    apply_seq l (apply_seq l t) = apply_seq l t := by
  have hid := apply_seq_id l t
  rw [apply_seq_eq_last_pos l (apply_seq l t), hid, apply_seq_eq_last_pos l t]
  cases hl : last_pos l t.id <;> rfl

theorem reorder_foldl_eq (l : List (Nat × Nat)) (s : Store) :
    l.foldl (fun st p => if (get_task st p.2).isSome then st.map (apply_at p) else st) s
      = s.map (apply_seq l) := by
  induction l generalizing s with
  | nil =>
    show s = s.map (fun t => t)
    rw [List.map_id' s]
  | cons p l ih =>
    rw [List.foldl_cons]
    have hstep : (if (get_task s p.2).isSome then s.map (apply_at p) else s)
        = s.map (apply_at p) := by
      by_cases h : (get_task s p.2).isSome = true
      · rw [if_pos h]
      · rw [if_neg h]
        have hnone : get_task s p.2 = none := by
          cases hg : get_task s p.2 with
          | none => rfl
          | some u => rw [hg] at h; simp at h
        have hfix : ∀ t ∈ s, apply_at p t = t := by
          intro t ht
          have hne := (get_task_eq_none_iff s p.2).mp hnone t ht
          unfold apply_at
          rw [if_neg hne]
        symm
        calc s.map (apply_at p) = s.map id := List.map_congr_left (fun a ha => hfix a ha)
        _ = s := List.map_id s
    rw [hstep, ih (s.map (apply_at p)), List.map_map]
    rfl

theorem reorder_tasks_eq_map (s : Store) (seq : List Nat) :
    reorder_tasks s seq = s.map (apply_seq seq.enum) :=
  reorder_foldl_eq seq.enum s

/-! ### Claim theorems -/

/-- C3: every create with non-empty content appends exactly one new task whose
position is `(minimum position over all tasks) - 1`, or `0` when the store is
empty; hence the new position is strictly less than every pre-existing task's
position. -/

theorem add_task_insert_at_top (s : Store) (c color : String)
    (label due_date : Option String) (now : Nat) (hc : c ≠ "") :
    ∃ nt : Task,
      add_task s (some c) color label due_date now = s ++ [nt] ∧
      nt.position = (match min_position s with | none => 0 | some m => m - 1) ∧
      ∀ t ∈ s, nt.position < t.position := by
  simp only [add_task]
  rw [if_neg hc]
  refine ⟨_, rfl, rfl, ?_⟩
  intro t ht
  cases hm : min_position s with
  | none =>
    rw [min_position_eq_none_iff] at hm
    rw [hm] at ht
    simp at ht
  | some m =>
    simp only [hm]
    have := min_position_le s m hm t ht
    omega

/-- C3 witness: on a store holding positions `0` and `3`, the created task has
position `-1`, strictly below both. -/
theorem add_task_insert_at_top_witness :
    ∃ nt : TaskList.Task,
      add_task [sample_task 1 0 none none, sample_task 2 3 none none]
          (some "hello") "default" none none 7
        = [sample_task 1 0 none none, sample_task 2 3 none none] ++ [nt] ∧
      nt.position =
        (match min_position [sample_task 1 0 none none, sample_task 2 3 none none] with
         | none => 0 | some m => m - 1) ∧
      ∀ t ∈ [sample_task 1 0 none none, sample_task 2 3 none none], nt.position < t.position :=
  add_task_insert_at_top [sample_task 1 0 none none, sample_task 2 3 none none]
    "hello" "default" none none 7 (by decide)

/-- C1: deleting a stored task `X` (id `x`) clears `requires_id` on every task
that pointed at `x` (such a task survives with only that field changed), leaves
no task pointing at `x`, and makes `x` unretrievable. -/
theorem delete_task_cascade (s : Store) (x : Nat) (X : Task)
    (hx : get_task s x = some X) :
    (∀ Y ∈ s, Y.requires_id = some x → Y.id ≠ x →
        { Y with requires_id := none } ∈ delete_task s x) ∧
    (∀ Z ∈ delete_task s x, Z.requires_id ≠ some x) ∧
    get_task (delete_task s x) x = none := by
  unfold delete_task
  rw [hx]
  refine ⟨?_, ?_, ?_⟩
  · intro Y hY hreq hid
    rw [List.mem_filter]
    refine ⟨List.mem_map.mpr ⟨Y, hY, by rw [if_pos hreq]⟩, ?_⟩
    simpa using hid
  · intro Z hZ
    rw [List.mem_filter] at hZ
    obtain ⟨Y, hY, hYZ⟩ := List.mem_map.mp hZ.1
    by_cases h : Y.requires_id = some x
    · rw [if_pos h] at hYZ
      rw [← hYZ]
      simp
    · rw [if_neg h] at hYZ
      rw [← hYZ]
      exact h
  · rw [get_task_eq_none_iff]
    intro t ht
    rw [List.mem_filter] at ht
    simpa using ht.2

/-- C1 witness: deleting task `2` from a store where tasks `1` and `3` require it
clears both references and removes task `2`. -/
theorem delete_task_cascade_witness :
    get_task
      (delete_task
        [sample_task 1 0 none (some 2), sample_task 2 1 none none,
         sample_task 3 2 none (some 2)] 2) 2 = none ∧
    ∀ Z ∈ delete_task
        [sample_task 1 0 none (some 2), sample_task 2 1 none none,
         sample_task 3 2 none (some 2)] 2, Z.requires_id ≠ some 2 := by
  have h := delete_task_cascade
    [sample_task 1 0 none (some 2), sample_task 2 1 none none, sample_task 3 2 none (some 2)]
    2 (sample_task 2 1 none none) (by rfl)
  exact ⟨h.2.2, h.2.1⟩

/-- C4 counterexample: submitting `requires_id = "\u00b2"` (superscript two) on an
existing task: Python `"\u00b2".isdigit()` is true but `int("\u00b2")` raises
ValueError, so the request fails and nothing is committed — the edit does not
succeed with the field cleared, refuting "degrades to absent, never an error". -/
theorem edit_task_superscript_digit_errors :
    edit_task [sample_task 1 0 none none] 1 (some "y") none none none (some "\u00b2") none
      = none := by rfl

/-- C4 (amended): for an edit of an existing task with content submitted: a
missing, empty, or not-all-digits `requires_id` is stored absent and the edit
succeeds; an all-decimal-digit submission parses and is stored iff its value
differs from the task's own id and resolves to an existing task, and is stored
absent (edit still succeeding) otherwise; but a submission that is all Unicode
digits while containing a non-decimal digit (`isdigit` true, `int()` ValueError)
makes the request fail with nothing committed. -/
theorem edit_task_requires_id_validation (s : Store) (i : Nat) (T : Task)
    (c : String) (color : Option String) (label due_date note : Option String)
    (req : Option String) (hT : get_task s i = some T) :
    ((req = none ∨ ∃ r, req = some r ∧ ¬ (r.data ≠ [] ∧ r.data.all py_isdigit = true)) →
      ∃ s', edit_task s i (some c) color label due_date req note = some s' ∧
        ∀ t' ∈ s', t'.id = i → t'.requires_id = none) ∧
    (∀ r v, req = some r → r.data ≠ [] → r.data.all py_isdigit = true →
      py_int_of_digits r.data = some v →
      ∃ s', edit_task s i (some c) color label due_date req note = some s' ∧
        ∀ t' ∈ s', t'.id = i →
          t'.requires_id =
            (if v ≠ T.id ∧ (get_task s v).isSome = true then some v else none)) ∧
    (∀ r, req = some r → r.data ≠ [] → r.data.all py_isdigit = true →
      py_int_of_digits r.data = none →
      edit_task s i (some c) color label due_date req note = none) := by
  have hmem : ∀ (nr : Option Nat) (t' : Task),
      t' ∈ s.map (fun t =>
        if t.id = i then
          ({ t with content := c, color := color, label := norm_label label,
                    due_date := norm_opt due_date, requires_id := nr,
                    completion_note :=
                      if t.completed_at.isSome then norm_opt note
                      else t.completion_note } : Task)
        else t) →
      t'.id = i → t'.requires_id = nr := by
    intro nr t' ht' hid
    obtain ⟨t, ht, hteq⟩ := List.mem_map.mp ht'
    by_cases h : t.id = i
    · rw [if_pos h] at hteq
      rw [← hteq]
    · rw [if_neg h] at hteq
      rw [← hteq] at hid
      exact absurd hid h
  refine ⟨?_, ?_, ?_⟩
  · intro hbad
    rcases hbad with rfl | ⟨r, rfl, hr⟩
    · simp only [edit_task]
      rw [hT]
      dsimp only
      exact ⟨_, rfl, hmem none⟩
    · simp only [edit_task]
      rw [hT]
      dsimp only
      rw [if_neg hr]
      exact ⟨_, rfl, hmem none⟩
  · intro r v hreq hne hall hv
    subst hreq
    simp only [edit_task]
    rw [hT]
    dsimp only
    rw [if_pos ⟨hne, hall⟩, hv]
    dsimp only
    by_cases hvalid : v ≠ T.id ∧ (get_task s v).isSome = true
    · rw [if_pos hvalid, if_pos hvalid]
      exact ⟨_, rfl, hmem (some v)⟩
    · rw [if_neg hvalid, if_neg hvalid]
      exact ⟨_, rfl, hmem none⟩
  · intro r hreq hne hall hv
    subst hreq
    simp only [edit_task]
    rw [hT]
    dsimp only
    rw [if_pos ⟨hne, hall⟩, hv]

/-- C4 witness: editing task `1` with `requires_id = "1"` (self-referential)
succeeds and stores absent; the validation conditional evaluates to `none`. -/
theorem edit_task_requires_id_validation_witness :
    (∃ s', edit_task [sample_task 1 0 none none, sample_task 2 1 none none] 1
        (some "y") none none none (some "1") none = some s' ∧
      ∀ t' ∈ s', t'.id = 1 →
        t'.requires_id =
          (if (1 : Nat) ≠ (sample_task 1 0 none none).id ∧
              (get_task [sample_task 1 0 none none, sample_task 2 1 none none] 1).isSome
                = true
            then some 1 else none)) ∧
    (if (1 : Nat) ≠ (sample_task 1 0 none none).id ∧
        (get_task [sample_task 1 0 none none, sample_task 2 1 none none] 1).isSome = true
      then some 1 else (none : Option Nat)) = none := by
  refine ⟨(edit_task_requires_id_validation
      [sample_task 1 0 none none, sample_task 2 1 none none] 1
      (sample_task 1 0 none none) "y" none none none none (some "1")
      (by rfl)).2.1 "1" 1 rfl (by decide) (by decide) (by rfl), ?_⟩
  decide

/-- C2: if every `requires_id` in the store resolves to an existing task, then
after `sweep_completed` no completed task remains and every surviving
`requires_id` still resolves to a task present in the swept store. -/
theorem sweep_completed_integrity (s : Store)
    (hint : ∀ t ∈ s, ∀ r, t.requires_id = some r → (get_task s r).isSome = true) :
    (∀ t ∈ sweep_completed s, t.completed_at = none) ∧
    (∀ t ∈ sweep_completed s, ∀ r, t.requires_id = some r →
        (get_task (sweep_completed s) r).isSome = true) := by
  unfold sweep_completed
  by_cases hemp : (completed_ids s).isEmpty
  · rw [if_pos hemp]
    have hnone : ∀ t ∈ s, t.completed_at = none := by
      intro t ht
      rw [← Option.not_isSome_iff_eq_none]
      intro hsome
      have : t.id ∈ completed_ids s := (mem_completed_ids s t.id).mpr ⟨t, ht, hsome, rfl⟩
      rw [List.isEmpty_iff] at hemp
      rw [hemp] at this
      simp at this
    exact ⟨hnone, fun t ht r hr => hint t ht r hr⟩
  · rw [if_neg hemp]
    constructor
    · intro t ht
      rw [List.mem_filter] at ht
      rw [← Option.isNone_iff_eq_none]
      exact ht.2
    · intro t ht r hr
      rw [List.mem_filter] at ht
      obtain ⟨t0, ht0, ht0eq⟩ := List.mem_map.mp ht.1
      -- since t still carries `some r`, the reference was not cleared: r survives
      have hr0 : t0.requires_id = some r ∧ r ∉ completed_ids s := by
        rw [← sweep_clear_requires_id (completed_ids s) t0 r, ht0eq]
        exact hr
      -- the referenced task exists in s and must be active
      obtain ⟨u, hu, huid⟩ := (get_task_isSome_iff s r).mp (hint t0 ht0 r hr0.1)
      have huact : u.completed_at.isNone = true := by
        rw [Option.isNone_iff_eq_none, ← Option.not_isSome_iff_eq_none]
        intro hsome
        exact hr0.2 ((mem_completed_ids s r).mpr ⟨u, hu, hsome, huid⟩)
      -- its (possibly cleared) image survives the filter and keeps id r
      rw [get_task_isSome_iff]
      refine ⟨sweep_clear (completed_ids s) u, ?_, ?_⟩
      · rw [List.mem_filter]
        refine ⟨List.mem_map.mpr ⟨u, hu, rfl⟩, ?_⟩
        rw [sweep_clear_completed_at]
        exact huact
      · rw [sweep_clear_id]
        exact huid

/-- C2 witness: a store with one active task depending on a completed one (and
another depending on an active one) satisfies referential integrity; sweeping it
removes the completed tasks and leaves only valid references. -/
theorem sweep_completed_integrity_witness :
    (∀ t ∈ sweep_completed
        [sample_task 1 0 none (some 2), sample_task 2 1 (some 5) none,
         sample_task 3 2 (some 6) (some 2), sample_task 4 3 none (some 1)],
      t.completed_at = none) ∧
    (∀ t ∈ sweep_completed
        [sample_task 1 0 none (some 2), sample_task 2 1 (some 5) none,
         sample_task 3 2 (some 6) (some 2), sample_task 4 3 none (some 1)],
      ∀ r, t.requires_id = some r →
        (get_task (sweep_completed
          [sample_task 1 0 none (some 2), sample_task 2 1 (some 5) none,
           sample_task 3 2 (some 6) (some 2), sample_task 4 3 none (some 1)]) r).isSome = true) :=
  sweep_completed_integrity
    [sample_task 1 0 none (some 2), sample_task 2 1 (some 5) none,
     sample_task 3 2 (some 6) (some 2), sample_task 4 3 none (some 1)]
    (by decide)

/-- C6: toggling a stored active task twice returns it to the active set:
afterwards it has `completed_at = none`, `completion_note = none`, and its
position is recomputed by the insert-at-top rule as `m - 1` where `m` is the
minimum position over the store before the toggles — in particular at or below
that prior minimum. -/
theorem toggle_twice_reactivation (s : Store) (i : Nat) (T : Task) (n1 n2 : Nat)
    (hT : get_task s i = some T) (hact : T.completed_at = none) :
    ∃ m, min_position s = some m ∧
      (∃ t' ∈ toggle_task (toggle_task s i n1) i n2, t'.id = i) ∧
      ∀ t' ∈ toggle_task (toggle_task s i n1) i n2, t'.id = i →
        t'.completed_at = none ∧ t'.completion_note = none ∧
        t'.position = m - 1 ∧ t'.position ≤ m := by
  obtain ⟨m, hm⟩ := min_position_exists s T (get_task_mem s i T hT)
  have hTid : T.id = i := get_task_id s i T hT
  have hstep1 := toggle_task_of_active s i n1 T hT hact
  -- the first toggle preserves ids and positions
  have hid1 : ∀ t : Task,
      ((fun t => if t.id = i then { t with completed_at := some n1 } else t) t).id = t.id := by
    intro t
    by_cases h : t.id = i <;> simp [h]
  have hpos1 : ∀ t : Task,
      ((fun t => if t.id = i then { t with completed_at := some n1 } else t) t).position
        = t.position := by
    intro t
    by_cases h : t.id = i <;> simp [h]
  have hget1 : get_task (toggle_task s i n1) i =
      some { T with completed_at := some n1 } := by
    rw [hstep1, get_task_map s _ i hid1, hT]
    simp [hTid]
  have hmin1 : min_position (toggle_task s i n1) = some m := by
    rw [hstep1, min_position_map s _ hpos1, hm]
  -- second toggle: the task is now completed, so it is reactivated at the top
  have hstep2 := toggle_task_of_completed (toggle_task s i n1) i n2
    { T with completed_at := some n1 } m hget1 (by simp) hmin1
  refine ⟨m, hm, ?_, ?_⟩
  · refine ⟨{ T with position := m - 1, completion_note := none, completed_at := none },
      ?_, hTid⟩
    rw [hstep2]
    refine List.mem_map.mpr ⟨{ T with completed_at := some n1 }, ?_, by simp [hTid]⟩
    rw [hstep1]
    exact List.mem_map.mpr ⟨T, get_task_mem s i T hT, by simp [hTid]⟩
  · intro t' ht' hid
    rw [hstep2] at ht'
    obtain ⟨t, ht, hteq⟩ := List.mem_map.mp ht'
    by_cases h : t.id = i
    · rw [if_pos h] at hteq
      rw [← hteq]
      refine ⟨rfl, rfl, rfl, ?_⟩
      show m - 1 ≤ m
      omega
    · rw [if_neg h] at hteq
      rw [← hteq] at hid
      exact absurd hid h

/-- C6 witness: toggling task `1` twice in a two-task store (minimum position
`-1`) reactivates it at position `-2`, with note and timestamp cleared. -/
theorem toggle_twice_reactivation_witness :
    ∃ m, min_position [sample_task 1 0 none none, sample_task 2 (-1) none none] = some m ∧
      (∃ t' ∈ toggle_task (toggle_task
          [sample_task 1 0 none none, sample_task 2 (-1) none none] 1 10) 1 20, t'.id = 1) ∧
      ∀ t' ∈ toggle_task (toggle_task
          [sample_task 1 0 none none, sample_task 2 (-1) none none] 1 10) 1 20, t'.id = 1 →
        t'.completed_at = none ∧ t'.completion_note = none ∧
        t'.position = m - 1 ∧ t'.position ≤ m :=
  toggle_twice_reactivation [sample_task 1 0 none none, sample_task 2 (-1) none none]
    1 (sample_task 1 0 none none) 10 20 (by rfl) (by rfl)

/-- C7: `move_task` on an active task exchanges its position with its immediate
neighbor among active tasks only — the active task with the greatest position
below it for `"up"`, the least position above it for `"down"` — touching no
other field; it is a silent no-op when the task does not exist, is completed,
or has no neighbor in the requested direction. -/
theorem move_task_swaps_with_active_neighbor (s : Store) (i : Nat) :
    (get_task s i = none → ∀ dir, move_task s i dir = s) ∧
    (∀ T, get_task s i = some T → T.completed_at.isSome = true →
        ∀ dir, move_task s i dir = s) ∧
    (∀ T, get_task s i = some T → T.completed_at = none →
      (neighbor_up s T.position = none → move_task s i "up" = s) ∧
      (neighbor_down s T.position = none → move_task s i "down" = s) ∧
      (∀ N, neighbor_up s T.position = some N →
        N ∈ s ∧ N.completed_at = none ∧ N.position < T.position ∧
        (∀ u ∈ s, u.completed_at = none → u.position < T.position →
            u.position ≤ N.position) ∧
        move_task s i "up" = s.map (fun t =>
          if t.id = i then { t with position := N.position }
          else if t.id = N.id then { t with position := T.position } else t)) ∧
      (∀ N, neighbor_down s T.position = some N →
        N ∈ s ∧ N.completed_at = none ∧ T.position < N.position ∧
        (∀ u ∈ s, u.completed_at = none → T.position < u.position →
            N.position ≤ u.position) ∧
        move_task s i "down" = s.map (fun t =>
          if t.id = i then { t with position := N.position }
          else if t.id = N.id then { t with position := T.position } else t))) := by
  refine ⟨fun h dir => move_task_of_missing s i dir h,
          fun T hT hc dir => move_task_of_completed s i dir T hT hc,
          fun T hT hact => ⟨?_, ?_, ?_, ?_⟩⟩
  · intro hn
    rw [move_task_active_eq s i "up" T hT hact]
    rw [if_pos (rfl : ("up" : String) = "up"), hn]
  · intro hn
    rw [move_task_active_eq s i "down" T hT hact]
    rw [if_neg (show ¬ (("down" : String) = "up") by decide), hn]
  · intro N hn
    obtain ⟨h1, h2, h3⟩ := neighbor_up_sound s T.position N hn
    refine ⟨h1, h2, h3, neighbor_up_maximal s T.position N hn, ?_⟩
    rw [move_task_active_eq s i "up" T hT hact]
    rw [if_pos (rfl : ("up" : String) = "up"), hn]
  · intro N hn
    obtain ⟨h1, h2, h3⟩ := neighbor_down_sound s T.position N hn
    refine ⟨h1, h2, h3, neighbor_down_minimal s T.position N hn, ?_⟩
    rw [move_task_active_eq s i "down" T hT hact]
    rw [if_neg (show ¬ (("down" : String) = "up") by decide), hn]

/-- C7 witness: with active tasks A (id 1, position 0) and B (id 2, position 1),
`move_task 2 "up"` swaps the two positions, giving A position 1 and B position 0. -/
theorem move_task_swaps_with_active_neighbor_witness :
    move_task [sample_task 1 0 none none, sample_task 2 1 none none] 2 "up"
      = [sample_task 1 1 none none, sample_task 2 0 none none] := by
  have h := (((move_task_swaps_with_active_neighbor
      [sample_task 1 0 none none, sample_task 2 1 none none] 2).2.2
    (sample_task 2 1 none none) (by rfl) (by rfl)).2.2.1
    (sample_task 1 0 none none) (by rfl)).2.2.2.2
  rw [h]
  rfl

/-- C10: every direction string other than exactly `"up"` is handled by the
`else` branch and therefore behaves exactly like `"down"`: in particular, for
an existing active task with a next-higher-position active neighbor, the two
positions are swapped. -/
theorem move_task_non_up_is_down (s : Store) (i : Nat) (dir : String)
    (h : dir ≠ "up") :
    move_task s i dir = move_task s i "down" ∧
    (∀ T N, get_task s i = some T → T.completed_at = none →
      neighbor_down s T.position = some N →
      move_task s i dir = s.map (fun t =>
        if t.id = i then { t with position := N.position }
        else if t.id = N.id then { t with position := T.position } else t)) := by
  have hmain : move_task s i dir = move_task s i "down" := by
    cases hget : get_task s i with
    | none =>
      rw [move_task_of_missing s i dir hget, move_task_of_missing s i "down" hget]
    | some T =>
      cases hc : T.completed_at with
      | some d =>
        rw [move_task_of_completed s i dir T hget (by rw [hc]; rfl),
            move_task_of_completed s i "down" T hget (by rw [hc]; rfl)]
      | none =>
        rw [move_task_active_eq s i dir T hget hc, move_task_active_eq s i "down" T hget hc]
        rw [if_neg h, if_neg (show ¬ (("down" : String) = "up") by decide)]
  refine ⟨hmain, fun T N hT hact hn => ?_⟩
  rw [hmain, move_task_active_eq s i "down" T hT hact]
  rw [if_neg (show ¬ (("down" : String) = "up") by decide), hn]

/-- C10 witness: `move_task 1 "sideways"` on A (id 1, position 0), B (id 2,
position 1) behaves like `"down"` and swaps the two positions. -/
theorem move_task_non_up_is_down_witness :
    move_task [sample_task 1 0 none none, sample_task 2 1 none none] 1 "sideways"
      = move_task [sample_task 1 0 none none, sample_task 2 1 none none] 1 "down" ∧
    move_task [sample_task 1 0 none none, sample_task 2 1 none none] 1 "sideways"
      = [sample_task 1 1 none none, sample_task 2 0 none none] := by
  have h := move_task_non_up_is_down
    [sample_task 1 0 none none, sample_task 2 1 none none] 1 "sideways" (by decide)
  refine ⟨h.1, ?_⟩
  rw [h.2 (sample_task 1 0 none none) (sample_task 2 1 none none)
    (by rfl) (by rfl) (by rfl)]
  rfl

/-- C5: the bulk reorder is idempotent — applying `reorder_tasks` twice with the
same id sequence produces exactly the same store (hence the same positions) as
applying it once. -/
theorem reorder_tasks_idempotent (s : Store) (seq : List Nat) :
    reorder_tasks (reorder_tasks s seq) seq = reorder_tasks s seq := by
  rw [reorder_tasks_eq_map s seq, reorder_tasks_eq_map (s.map (apply_seq seq.enum)) seq,
      List.map_map]
  exact List.map_congr_left (fun t _ => apply_seq_idem seq.enum t)

/-- C8 counterexample: the store holding the single non-empty task `1` is
editable into a store whose task has empty content — `edit_task` stores a
submitted empty `content` verbatim, so "edit never replaces a task's content
with empty content" fails. -/
theorem edit_task_stores_empty_content :
    ((edit_task [sample_task 1 0 none none] 1 (some "") none none none none none).getD
      []).map (fun t => t.content) = [""] := by rfl

/-- C8 (amended): `add_task` refuses empty or missing content and preserves the
all-contents-non-empty invariant, so tasks are created non-empty; the invariant
is not maintained by `edit_task`, which stores the submitted content unchecked. -/
theorem add_task_content_nonempty (s : Store) (c color : String)
    (label due : Option String) (now : Nat) :
    add_task s none color label due now = s ∧
    add_task s (some "") color label due now = s ∧
    (c ≠ "" → (∀ t ∈ s, t.content ≠ "") →
      ∀ t ∈ add_task s (some c) color label due now, t.content ≠ "") := by
  refine ⟨rfl, by simp [add_task], ?_⟩
  intro hc hinv t ht
  simp only [add_task] at ht
  rw [if_neg hc] at ht
  rw [List.mem_append] at ht
  rcases ht with h | h
  · exact hinv t h
  · simp at h
    rw [h]
    exact hc

/-- C8 witness: creating `"x"` on the empty store yields only non-empty contents. -/
theorem add_task_content_nonempty_witness :
    ∀ t ∈ add_task [] (some "x") "default" none none 0, t.content ≠ "" :=
  (add_task_content_nonempty [] "x" "default" none none 0).2.2 (by decide) (by simp)

/-- C9 counterexample: creating a task with the whitespace-only label `" "`
stores `some ""` — an empty, non-absent label — because `" "` is truthy in
Python, and stripping it yields the empty string; so "label is either absent
or a non-empty title-cased string" fails. -/
theorem add_task_whitespace_label_cex :
    (add_task [] (some "x") "default" (some " ") none 0).map (fun t => t.label)
      = [some ""] := by rfl

/-- C9 (amended): on create and edit the stored label is the normalization of
the submission: a missing or empty-string submission is stored absent, any
other submission is stripped of Python whitespace and title-cased (`" urgent "`
is stored as `"Urgent"`); a whitespace-only submission — including a bare
vertical tab — strips to the empty string and is stored as `""`, empty rather
than absent.  The submission is restricted to ASCII, the domain on which the
embedded `py_title` agrees exactly with Python `str.title()` (stripping is
exact for all strings). -/
theorem label_normalized_on_write (s : Store) (i : Nat) (T : Task) (c color : String)
    (raw due : Option String) (now : Nat) (hc : c ≠ "") (hT : get_task s i = some T)
    (hascii : ∀ r, raw = some r → ∀ ch ∈ r.data, ch.toNat < 128) :
    (∃ nt, add_task s (some c) color raw due now = s ++ [nt] ∧
        nt.label = norm_label raw) ∧
    (∃ s', edit_task s i (some c) (some color) raw due none none = some s' ∧
        ∀ t' ∈ s', t'.id = i → t'.label = norm_label raw) ∧
    norm_label none = none ∧ norm_label (some "") = none ∧
    norm_label (some " urgent ") = some "Urgent" ∧
    norm_label (some "\x0b") = some "" := by
  refine ⟨?_, ?_, rfl, by rfl, by rfl, by rfl⟩
  · simp only [add_task]
    rw [if_neg hc]
    exact ⟨_, rfl, rfl⟩
  · simp only [edit_task]
    rw [hT]
    refine ⟨_, rfl, ?_⟩
    intro t' ht' hid
    obtain ⟨t, ht, hteq⟩ := List.mem_map.mp ht'
    by_cases h : t.id = i
    · rw [if_pos h] at hteq
      rw [← hteq]
    · rw [if_neg h] at hteq
      rw [← hteq] at hid
      exact absurd hid h

/-- C9 witness: instantiating label normalization on a one-task store with the
ASCII submission `" urgent "`. -/
theorem label_normalized_on_write_witness :
    (∃ nt, add_task [sample_task 1 0 none none] (some "x") "default"
        (some " urgent ") none 0 = [sample_task 1 0 none none] ++ [nt] ∧
        nt.label = norm_label (some " urgent ")) ∧
    (∃ s', edit_task [sample_task 1 0 none none] 1 (some "x") (some "default")
        (some " urgent ") none none none = some s' ∧
        ∀ t' ∈ s', t'.id = 1 → t'.label = norm_label (some " urgent ")) ∧
    norm_label none = none ∧ norm_label (some "") = none ∧
    norm_label (some " urgent ") = some "Urgent" ∧
    norm_label (some "\x0b") = some "" :=
  label_normalized_on_write [sample_task 1 0 none none] 1 (sample_task 1 0 none none)
    "x" "default" (some " urgent ") none 0 (by decide) (by rfl)
    (by
      intro r hr ch hch
      injection hr with hr
      subst hr
      revert hch
      revert ch
      decide)

end TaskList
